import Mathlib

/-!
Shallow embedding of `get_vcf_frqs.py`, a population-specific allele-frequency
calculator for VCF files, together with proofs checking the design document's
claims against it.

Python strings are modelled as `String`, files as `List String` of lines
(without trailing newlines), dictionaries whose insertion order or content is
observable as association lists, dictionaries that are only ever indexed as
functions, Python `set`s that are only membership-tested as duplicate-free
`List Nat`, and runs that can raise an uncaught exception as
`Except String`.  Rational arithmetic (`ℚ`) stands in for Python's exact
small-integer division results.
-/

/-- Python `str.split(sep)` for a single-character separator, over char lists:
keeps empty tokens, and the split of the empty string is `[[]]`. -/
def splitChars (sep : Char) : List Char → List (List Char)
  | [] => [[]]
  | c :: rest =>
    let r := splitChars sep rest
    if c = sep then [] :: r
    else
      match r with
      | [] => [[c]]
      | t :: ts => (c :: t) :: ts

/-- Python `name.split(sep)` for a one-character separator `sep`. -/
def pySplit1 (s : String) (sep : Char) : List String :=
  (splitChars sep s.toList).map String.mk

/-- Worker for Python's no-argument `str.split()`: accumulates the current
token (reversed) and drops empty tokens at whitespace. -/
def wsTokensGo (cur : List Char) : List Char → List (List Char)
  | [] => if cur = [] then [] else [cur.reverse]
  | c :: rest =>
    if c.isWhitespace then
      if cur = [] then wsTokensGo [] rest else cur.reverse :: wsTokensGo [] rest
    else wsTokensGo (c :: cur) rest

/-- Python `s.split()` (no argument): whitespace runs separate tokens and
empty tokens are dropped. -/
def pySplitWs (s : String) : List String :=
  (wsTokensGo [] s.toList).map String.mk

/-- Python `s.rstrip()`: remove trailing whitespace (including a newline). -/
def pyRstrip (s : String) : String :=
  String.mk (s.toList.reverse.dropWhile Char.isWhitespace).reverse

/-- Python `s.startswith(pre)`. -/
def pyStartsWith (s pre : String) : Bool :=
  pre.toList.isPrefixOf s.toList

/-- Python list indexing `l[-k]` for `k ≥ 1`: the `k`-th element from the
end when `k ≤ len(l)`, otherwise an `IndexError` (`none`). -/
def pyNegIdx (l : List String) (k : Nat) : Option String :=
  if 1 ≤ k ∧ k ≤ l.length then some (l.getD (l.length - k) "") else none

/-- Python `genotype.count('1')`: occurrences of the character `1`. -/
def count1 (s : String) : Nat :=
  s.toList.countP (fun c => c == '1')

/-- Python `sum(character.isdigit() for character in genotype)`.  Modelled as
counting decimal-digit characters; Unicode digit variants outside ASCII are
not modelled. -/
def countDigits (s : String) : Nat :=
  s.toList.countP Char.isDigit

/-- Sequential effectful fold standing in for a Python `for` loop whose body
may raise: stops at the first exception. -/
def foldE {σ α : Type} (f : σ → α → Except String σ) : σ → List α → Except String σ
  | s, [] => Except.ok s
  | s, a :: t =>
    match f s a with
    | Except.error e => Except.error e
    | Except.ok s' => foldE f s' t

/-- The per-individual grouping table `grouping_dict`: individual identifier
to an insertion-ordered map from grouping-system name to group label. -/
abbrev GT := List (String × List (String × String))

/-- The `grouping_headers` bookkeeping: grouping-system name to the labels
seen for it (a Python set, modelled as a duplicate-free list). -/
abbrev GH := List (String × List String)

/-- The `group_sets` index: group label to the set of 0-based sample-column
positions in that group (insertion-ordered keys, duplicate-free positions). -/
abbrev GS := List (String × List Nat)

/-- Python `dict` update `m[k] = v`: overwrite in place at the first (only)
occurrence of the key, otherwise append at the end. -/
def alUpdate (k v : String) : List (String × String) → List (String × String)
  | [] => [(k, v)]
  | p :: t => if p.1 = k then (k, v) :: t else p :: alUpdate k v t

/-- Python `grouping_dict[k].update({h: v})` on a `defaultdict(dict)`:
materialise the inner dict for `k` if needed, then set `h` to `v`. -/
def ddUpdate (k h v : String) : GT → GT
  | [] => [(k, alUpdate h v [])]
  | p :: t => if p.1 = k then (p.1, alUpdate h v p.2) :: t else p :: ddUpdate k h v t

/-- Python `grouping_headers[h].add(v)` on a `defaultdict(set)`. -/
def ghAdd (h v : String) : GH → GH
  | [] => [(h, [v])]
  | p :: t =>
    if p.1 = h then (p.1, if v ∈ p.2 then p.2 else p.2 ++ [v]) :: t
    else p :: ghAdd h v t

/-- The inner loop of `get_groupings` over one data row: iterate
`group_index` over the row's own label fields, looking each index up in
`header_names` (a bare `KeyError` when the row has more fields than the
header). -/
def loadFields (headerNames : List String) (id : String) :
    GT × GH → Nat → List String → Except String (GT × GH)
  | acc, _, [] => Except.ok acc
  | (t, h), gi, v :: rest =>
    match headerNames.get? gi with
    | none => Except.error ("KeyError: " ++ toString gi)
    | some hname => loadFields headerNames id (ddUpdate id hname v t, ghAdd hname v h) (gi + 1) rest

/-- One data line of the grouping file: whitespace-split it and feed the
label fields (everything after the individual identifier) to `loadFields`. -/
def loadRow (headerNames : List String) (acc : GT × GH) (line : String) :
    Except String (GT × GH) :=
  let fields := pySplitWs (pyRstrip line)
  loadFields headerNames (fields.headD "") acc 0 (fields.drop 1)

/-- Python `get_groupings`: read the header line for the grouping-system
names, then load every remaining line. -/
def get_groupings (lines : List String) : Except String (GT × GH) :=
  let headerFields := pySplitWs (pyRstrip (lines.headD ""))
  foldE (loadRow (headerFields.drop 1)) ([], []) (lines.drop 1)

/-- Point update of a tally function at one key. -/
def bump (f : String → Nat) (k : String) (d : Nat) : String → Nat :=
  fun k' => if k' = k then f k' + d else f k'

/-- Body of the nested loop of `get_frequencies` for one individual index
`i` and one group entry: when `i` belongs to the group, add the `'1'` count
and the digit count of the individual's genotype field. -/
def tally (gl : List String) (i : Nat) (sc : (String → Nat) × (String → Nat))
    (g : String × List Nat) : (String → Nat) × (String → Nat) :=
  if i ∈ g.2 then
    (bump sc.1 g.1 (count1 (gl.getD i "")), bump sc.2 g.1 (countDigits (gl.getD i "")))
  else sc

/-- The inner `for group_name in group_index_list` pass for one individual. -/
def gfStep (gl : List String) (gs : GS) (sc : (String → Nat) × (String → Nat))
    (i : Nat) : (String → Nat) × (String → Nat) :=
  gs.foldl (tally gl i) sc

/-- The accumulation loop of `get_frequencies`: `sums` and `counts` after
iterating `individual_index` over `range(len(genotype_list))`. -/
def gfLoop (gl : List String) (gs : GS) : (String → Nat) × (String → Nat) :=
  (List.range gl.length).foldl (gfStep gl gs) (fun _ => 0, fun _ => 0)

/-- The final loop of `get_frequencies`: `frqs[g] = sums[g]/counts[g]` in
group insertion order, raising `ZeroDivisionError` at the first group whose
call total is zero. -/
def mkFrqs (counts sums : String → Nat) : GS → Except String (List (String × ℚ))
  | [] => Except.ok []
  | g :: t =>
    if counts g.1 = 0 then Except.error "ZeroDivisionError: division by zero"
    else
      match mkFrqs counts sums t with
      | Except.error e => Except.error e
      | Except.ok r => Except.ok ((g.1, (sums g.1 : ℚ) / (counts g.1 : ℚ)) :: r)

/-- Python `get_frequencies(genotype_list, group_index_list)`: per-group
allele frequency and call count. -/
def get_frequencies (genotype_list : List String) (group_index_list : GS) :
    Except String (List (String × ℚ) × (String → Nat)) :=
  match mkFrqs (gfLoop genotype_list group_index_list).2
      (gfLoop genotype_list group_index_list).1 group_index_list with
  | Except.error e => Except.error e
  | Except.ok frqs => Except.ok (frqs, (gfLoop genotype_list group_index_list).2)

/-- Python `group_sets[label].add(i)` on a `defaultdict(set)`: add the
position to the label's set, appending a fresh label at the end (this append
realises the first-seen insertion order of group labels). -/
def gsAdd : GS → String → Nat → GS
  | [], label, i => [(label, [i])]
  | p :: t, label, i =>
    if p.1 = label then (p.1, if i ∈ p.2 then p.2 else p.2 ++ [i]) :: t
    else p :: gsAdd t label i

/-- Lookup of a label's position set in the group index: the value at the
first (with unique keys, only) occurrence of the label, empty when the
label is absent. -/
def gsFind : GS → String → List Nat
  | [], _ => []
  | p :: t, label => if p.1 = label then p.2 else gsFind t label

/-- Python `grouping_info[name].values()` on the `defaultdict(dict)`: all
labels assigned to `name` across the grouping systems, in system insertion
order (empty for an individual absent from the table). -/
def labelsOf (gi : GT) (name : String) : List String :=
  (((gi.find? (fun p => p.1 == name)).map Prod.snd).getD []).map Prod.snd

/-- The `group_sets` construction loop of `main`, with `k` the column
position of the first name still to process. -/
def buildGS (gi : GT) : List String → Nat → GS → GS
  | [], _, gs => gs
  | n :: rest, k, gs => buildGS gi rest (k + 1) ((labelsOf gi n).foldl (fun g lab => gsAdd g lab k) gs)

/-- Python `main`'s group-index construction from the grouping table and the
resolved sample names, in header order starting at column position 0. -/
def buildGroupSets (gi : GT) (names : List String) : GS :=
  buildGS gi names 0 []

/-- Python `sample_name.split("_")[-use_iid]`: the resolved grouping-table
key for one sample-column name (`use_iid` is 1 in individual mode, 2 in
family mode). -/
def resolveSample (name : String) (use_iid : Nat) : Option String :=
  pyNegIdx (pySplit1 name '_') use_iid

/-- Python `[sample_name.split("_")[-use_iid] for sample_name in
line.rstrip().split("\t")[9:]]`: resolve every sample column of the
`#CHROM` header line, failing if any single resolution fails. -/
def resolveSamples (line : String) (use_iid : Nat) : Option (List String) :=
  ((pySplit1 (pyRstrip line) '\t').drop 9).mapM (fun n => resolveSample n use_iid)

/-- One cell of the tab-separated output: a verbatim string, a frequency, or
a call count. -/
inductive Cell where
  | str : String → Cell
  | num : ℚ → Cell
  | nat : Nat → Cell
deriving DecidableEq

/-- The five fixed header cells written before the per-group columns. -/
def fixed5 : List Cell :=
  [Cell.str "Chr", Cell.str "Position", Cell.str "rsID", Cell.str "Ref", Cell.str "Alt"]

/-- The per-group header cells `{label}_freq`, `{label}_count` in group
insertion order. -/
def headerCells : GS → List Cell
  | [] => []
  | g :: t => Cell.str (g.1 ++ "_freq") :: Cell.str (g.1 ++ "_count") :: headerCells t

/-- The per-group body cells of one output row: frequency then call count
for each group, in the iteration order of the frequency map. -/
def groupCells (counts : String → Nat) : List (String × ℚ) → List Cell
  | [] => []
  | f :: t => Cell.num f.2 :: Cell.nat (counts f.1) :: groupCells counts t

/-- State of the streaming loop of `main`: the group index once the `#CHROM`
line has been seen, and the output rows written so far. -/
abbrev MState := Option GS × List (List Cell)

/-- One iteration of `main`'s line loop: data lines are aggregated and
formatted (a `NameError` if no `#CHROM` line has been seen yet), the
`#CHROM` line builds the group index and writes the header row, any other
comment line is skipped. -/
def mainStep (gi : GT) (use_iid : Nat) (st : MState) (line : String) :
    Except String MState :=
  if pyStartsWith line "#" = false then
    match st.1 with
    | none => Except.error "NameError: name group_sets is not defined"
    | some gs =>
      let fields := pySplit1 (pyRstrip line) '\t'
      match get_frequencies (fields.drop 9) gs with
      | Except.error e => Except.error e
      | Except.ok (frqs, counts) =>
        Except.ok (some gs, st.2 ++ [(fields.take 5).map Cell.str ++ groupCells counts frqs])
  else if pyStartsWith line "#CHROM" = true then
    match resolveSamples line use_iid with
    | none => Except.error "IndexError: list index out of range"
    | some sample_names =>
      let gs := buildGroupSets gi sample_names
      Except.ok (some gs, st.2 ++ [fixed5 ++ headerCells gs])
  else Except.ok st

/-- Python `main` after argument parsing: load the grouping table, then
stream the variant-file lines, producing the output rows. -/
def runMain (groupingLines vcfLines : List String) (use_fid : Bool) :
    Except String (List (List Cell)) :=
  match get_groupings groupingLines with
  | Except.error e => Except.error e
  | Except.ok (gi, _) =>
    match foldE (mainStep gi (if use_fid then 2 else 1)) (none, []) vcfLines with
    | Except.error e => Except.error e
    | Except.ok st => Except.ok st.2

/-- Genotype-field strings of a variant row at the column positions of one
group, in column order: the set `S` of the design document. -/
def groupStrings (gl : List String) (idxs : List Nat) : List String :=
  (((List.range gl.length).filter (fun i => decide (i ∈ idxs)))).map (fun i => gl.getD i "")

/-- Total number of literal `'1'` characters over a group's genotype
fields. -/
def specHits (gl : List String) (idxs : List Nat) : Nat :=
  ((groupStrings gl idxs).map count1).sum

/-- Total number of decimal-digit characters over a group's genotype
fields. -/
def specDigits (gl : List String) (idxs : List Nat) : Nat :=
  ((groupStrings gl idxs).map countDigits).sum

/-- Body row of the output for one data line, as `main` writes it on
success: the first five tab-separated input fields verbatim, then per-group
frequency and call count in group insertion order. -/
def dataRow (gs : GS) (line : String) : List Cell :=
  let fields := pySplit1 (pyRstrip line) '\t'
  let sc := gfLoop (fields.drop 9) gs
  (fields.take 5).map Cell.str ++
    groupCells sc.2 (gs.map (fun p => (p.1, (sc.1 p.1 : ℚ) / (sc.2 p.1 : ℚ))))

/-! ### Basic facts about the split helpers -/

theorem splitChars_ne_nil (sep : Char) : ∀ l : List Char, splitChars sep l ≠ []
  | [] => by simp [splitChars]
  | c :: rest => by
    unfold splitChars
    by_cases hc : c = sep
    · simp [hc]
    · simp only [hc, if_false]
      cases h : splitChars sep rest <;> simp

theorem splitChars_length (sep : Char) :
    ∀ l : List Char, (splitChars sep l).length = l.count sep + 1
  | [] => by simp [splitChars]
  | c :: rest => by
    unfold splitChars
    by_cases hc : c = sep
    · simp [hc, List.count_cons, splitChars_length sep rest]
    · have h := splitChars_length sep rest
      cases hr : splitChars sep rest with
      | nil => exact absurd hr (splitChars_ne_nil sep rest)
      | cons t ts =>
        rw [hr] at h
        simp [hc, hr, List.count_cons, Ne.symm hc] at h ⊢
        omega

theorem pySplit1_ne_nil (s : String) (sep : Char) : pySplit1 s sep ≠ [] := by
  simp only [pySplit1, ne_eq, List.map_eq_nil_iff]
  exact splitChars_ne_nil sep s.toList

theorem pySplit1_length (s : String) (sep : Char) :
    (pySplit1 s sep).length = s.toList.count sep + 1 := by
  simp [pySplit1, splitChars_length]

theorem getD_length_sub_one_eq_getLast? :
    ∀ l : List String, l ≠ [] → some (l.getD (l.length - 1) "") = l.getLast?
  | [a], _ => rfl
  | a :: b :: t, _ => by
    have ih := getD_length_sub_one_eq_getLast? (b :: t) (by simp)
    rw [List.getLast?_cons_cons]
    simpa using ih

/-- C8: the resolver under the default "individual" policy (`use_iid = 1`)
selects the last underscore-delimited token of a sample-column name, and
under the "family" policy (`use_iid = 2`) the second-to-last token whenever
the name splits into at least two tokens. -/
theorem resolver_token_selection (name : String) :
    resolveSample name 1 = (pySplit1 name '_').getLast? ∧
    (2 ≤ (pySplit1 name '_').length →
      resolveSample name 2 = (pySplit1 name '_')[(pySplit1 name '_').length - 2]?) := by
  have hne := pySplit1_ne_nil name '_'
  have hlen : 1 ≤ (pySplit1 name '_').length := List.length_pos.mpr hne
  constructor
  · rw [resolveSample, pyNegIdx, if_pos ⟨le_refl 1, hlen⟩]
    exact getD_length_sub_one_eq_getLast? _ hne
  · intro h2
    rw [resolveSample, pyNegIdx, if_pos ⟨by omega, h2⟩]
    have hlt : (pySplit1 name '_').length - 2 < (pySplit1 name '_').length := by omega
    rw [List.getElem?_eq_getElem hlt, List.getD_eq_getElem _ _ hlt]

/-- Witness for C8 at the design document's example name: individual mode
selects `IND03`, family mode selects `FAM07`. -/
theorem resolver_token_selection_witness :
    resolveSample "COHORT1_FAM07_IND03" 1 = some "IND03" ∧
    resolveSample "COHORT1_FAM07_IND03" 2 = some "FAM07" :=
  ⟨(resolver_token_selection "COHORT1_FAM07_IND03").1.trans (by decide),
   (((resolver_token_selection "COHORT1_FAM07_IND03").2 (by decide)).trans (by decide))⟩

/-- C10: individual-mode resolution succeeds on every sample-column name,
while family-mode resolution succeeds exactly when the name contains an
underscore; a name without one makes the `[-2]` index out of range. -/
theorem family_mode_underscore_requirement (s : String) :
    (resolveSample s 1).isSome = true ∧
    ((resolveSample s 2).isSome = true ↔ '_' ∈ s.toList) := by
  have hlen := pySplit1_length s '_'
  constructor
  · have h1 : 1 ≤ (pySplit1 s '_').length := by omega
    rw [resolveSample, pyNegIdx, if_pos ⟨le_refl 1, h1⟩]
    rfl
  · constructor
    · intro h
      by_contra hmem
      have hc : s.toList.count '_' = 0 := List.count_eq_zero.mpr hmem
      rw [resolveSample, pyNegIdx, if_neg (by omega)] at h
      exact Bool.noConfusion h
    · intro hmem
      have hc : 0 < s.toList.count '_' := List.count_pos_iff.mpr hmem
      rw [resolveSample, pyNegIdx, if_pos ⟨by omega, by omega⟩]
      rfl

/-! ### Error-handling behavior on concrete inputs -/

/-- C1: contrary to the design document's required undefined-frequency
sentinel, a group whose genotype fields are all `./.` (call total 0) makes
the whole run abort with an uncaught `ZeroDivisionError`; no row for the
variant is completed and no later row is processed. -/
theorem zero_call_total_crashes :
    runMain ["ID SYS1", "A x"]
      ["#CHROM\tPOS\tID\tREF\tALT\tQUAL\tFILTER\tINFO\tFORMAT\tS_A",
       "1\t100\trs1\tG\tT\tq\tf\ti\tGT\t./."] false =
    Except.error "ZeroDivisionError: division by zero" := by rfl

/-- C2: contrary to the design document's required fatal
`UnresolvedSampleError`, a sample column (`S_B`, resolving to key `B`)
absent from the grouping table is silently assigned to no group: the run
completes, writes the header and the data row, and `B`'s genotype `0/0`
contributes to no count (group `x` counts only sample `A`'s two calls). -/
theorem unresolved_sample_run_continues :
    ∃ rows, runMain ["ID SYS1", "A x"]
      ["#CHROM\tPOS\tID\tREF\tALT\tQUAL\tFILTER\tINFO\tFORMAT\tS_A\tS_B",
       "1\t100\trs1\tG\tT\tq\tf\ti\tGT\t1/1\t0/0"] false = Except.ok rows ∧
    rows.length = 2 ∧
    rows.getD 1 [] = [Cell.str "1", Cell.str "100", Cell.str "rs1", Cell.str "G",
      Cell.str "T", Cell.num ((2 : ℚ) / 2), Cell.nat 2] :=
  ⟨_, rfl, rfl, rfl⟩

/-- C4: contrary to the design document's required fatal
`GroupingFormatError`, a grouping-file data row with fewer fields than the
header (`A x` under header `ID SYS1 SYS2`) is silently accepted: the load
succeeds and records only the labels present. -/
theorem short_grouping_row_accepted :
    get_groupings ["ID SYS1 SYS2", "A x"] =
      Except.ok ([("A", [("SYS1", "x")])], [("SYS1", ["x"])]) := by rfl

/-- C9: the pipeline is a pure function of the grouping file, the variant
file, and the resolution policy: equal inputs give byte-identical output. -/
theorem run_deterministic (g1 g2 v1 v2 : List String) (u1 u2 : Bool)
    (hg : g1 = g2) (hv : v1 = v2) (hu : u1 = u2) :
    runMain g1 v1 u1 = runMain g2 v2 u2 := by
  subst hg; subst hv; subst hu; rfl

/-- Witness for C9 on a concrete run. -/
theorem run_deterministic_witness :
    runMain ["ID POP", "A x"]
      ["#CHROM\tP\tI\tR\tA\tQ\tF\tN\tM\tS_A", "1\t2\tr\tA\tT\tq\tf\tn\tm\t0/1"] false =
    runMain ["ID POP", "A x"]
      ["#CHROM\tP\tI\tR\tA\tQ\tF\tN\tM\tS_A", "1\t2\tr\tA\tT\tq\tf\tn\tm\t0/1"] false :=
  run_deterministic _ _ _ _ _ _ rfl rfl rfl

/-! ### The accumulation loop of `get_frequencies` computes per-group
character counts -/

theorem bump_ne (f : String → Nat) (k : String) (d : Nat) (g : String) (h : g ≠ k) :
    bump f k d g = f g := by
  simp [bump, h]

theorem bump_self (f : String → Nat) (k : String) (d : Nat) : bump f k d k = f k + d := by
  simp [bump]

theorem foldl_tally_preserve (gl : List String) (i : Nat) :
    ∀ (t : GS) (sc : (String → Nat) × (String → Nat)) (g : String),
      (∀ p ∈ t, p.1 ≠ g) →
      (t.foldl (tally gl i) sc).1 g = sc.1 g ∧ (t.foldl (tally gl i) sc).2 g = sc.2 g
  | [], sc, g, _ => ⟨rfl, rfl⟩
  | p :: t, sc, g, h => by
    have hp : g ≠ p.1 := Ne.symm (h p (List.mem_cons_self p t))
    have ih := foldl_tally_preserve gl i t (tally gl i sc p) g
      (fun q hq => h q (List.mem_cons_of_mem p hq))
    rw [List.foldl_cons]
    rw [ih.1, ih.2]
    unfold tally
    split
    · exact ⟨bump_ne _ _ _ _ hp, bump_ne _ _ _ _ hp⟩
    · exact ⟨rfl, rfl⟩

theorem gfStep_eval (gl : List String) :
    ∀ (gs : GS) (g : String) (idxs : List Nat),
      ((gs.map Prod.fst).Nodup) → (g, idxs) ∈ gs →
      ∀ (sc : (String → Nat) × (String → Nat)) (i : Nat),
        (gfStep gl gs sc i).1 g = sc.1 g + (if i ∈ idxs then count1 (gl.getD i "") else 0) ∧
        (gfStep gl gs sc i).2 g = sc.2 g + (if i ∈ idxs then countDigits (gl.getD i "") else 0)
  | [], g, idxs, _, hmem, _, _ => absurd hmem (List.not_mem_nil _)
  | p :: t, g, idxs, hnd, hmem, sc, i => by
    rw [List.map_cons, List.nodup_cons] at hnd
    rcases List.mem_cons.mp hmem with heq | hmt
    · subst heq
      have hkeys : ∀ q ∈ t, q.1 ≠ g := by
        intro q hq hqg
        have hq1 : q.1 ∈ List.map Prod.fst t := List.mem_map_of_mem Prod.fst hq
        rw [hqg] at hq1
        exact hnd.1 hq1
      have hpres := foldl_tally_preserve gl i t (tally gl i sc (g, idxs)) g hkeys
      unfold gfStep
      rw [List.foldl_cons, hpres.1, hpres.2]
      unfold tally
      by_cases hi : i ∈ idxs
      · simp only [hi, if_true]
        exact ⟨bump_self _ _ _, bump_self _ _ _⟩
      · simp only [hi, if_false]
        exact ⟨rfl, rfl⟩
    · have hpg : g ≠ p.1 := by
        intro hg
        have hg1 : g ∈ List.map Prod.fst t := by
          have := List.mem_map_of_mem Prod.fst hmt
          exact this
        rw [hg] at hg1
        exact hnd.1 hg1
      have ih := gfStep_eval gl t g idxs hnd.2 hmt (tally gl i sc p) i
      have ht1 : (tally gl i sc p).1 g = sc.1 g := by
        unfold tally
        split
        · exact bump_ne _ _ _ _ hpg
        · rfl
      have ht2 : (tally gl i sc p).2 g = sc.2 g := by
        unfold tally
        split
        · exact bump_ne _ _ _ _ hpg
        · rfl
      unfold gfStep at ih ⊢
      rw [List.foldl_cons, ih.1, ih.2, ht1, ht2]
      exact ⟨rfl, rfl⟩

theorem gfLoop_fold_eval (gl : List String) (gs : GS) (g : String) (idxs : List Nat)
    (hnd : (gs.map Prod.fst).Nodup) (hmem : (g, idxs) ∈ gs) :
    ∀ (L : List Nat) (sc : (String → Nat) × (String → Nat)),
      (L.foldl (gfStep gl gs) sc).1 g =
        sc.1 g + (L.map (fun i => if i ∈ idxs then count1 (gl.getD i "") else 0)).sum ∧
      (L.foldl (gfStep gl gs) sc).2 g =
        sc.2 g + (L.map (fun i => if i ∈ idxs then countDigits (gl.getD i "") else 0)).sum
  | [], sc => by simp
  | i :: L, sc => by
    have ih := gfLoop_fold_eval gl gs g idxs hnd hmem L (gfStep gl gs sc i)
    have hs := gfStep_eval gl gs g idxs hnd hmem sc i
    rw [List.foldl_cons]
    rw [ih.1, ih.2, hs.1, hs.2]
    simp [Nat.add_assoc]

theorem sum_ite_filter (f : Nat → Nat) (idxs : List Nat) :
    ∀ L : List Nat,
      (L.map (fun i => if i ∈ idxs then f i else 0)).sum =
        ((L.filter (fun i => decide (i ∈ idxs))).map f).sum
  | [] => rfl
  | i :: L => by
    by_cases h : i ∈ idxs <;> simp [h, sum_ite_filter f idxs L]

theorem gfLoop_eval (gl : List String) (gs : GS) (g : String) (idxs : List Nat)
    (hnd : (gs.map Prod.fst).Nodup) (hmem : (g, idxs) ∈ gs) :
    (gfLoop gl gs).1 g = specHits gl idxs ∧ (gfLoop gl gs).2 g = specDigits gl idxs := by
  have h := gfLoop_fold_eval gl gs g idxs hnd hmem (List.range gl.length) (fun _ => 0, fun _ => 0)
  unfold gfLoop
  rw [h.1, h.2, sum_ite_filter, sum_ite_filter]
  unfold specHits specDigits groupStrings
  simp [List.map_map, Function.comp_def]

/-! ### The division pass of `get_frequencies` -/

theorem mkFrqs_ok (c s : String → Nat) :
    ∀ gs : GS, (∀ p ∈ gs, c p.1 ≠ 0) →
      mkFrqs c s gs = Except.ok (gs.map (fun p => (p.1, (s p.1 : ℚ) / (c p.1 : ℚ))))
  | [], _ => rfl
  | p :: t, h => by
    have ih := mkFrqs_ok c s t (fun q hq => h q (List.mem_cons_of_mem p hq))
    unfold mkFrqs
    rw [if_neg (h p (List.mem_cons_self p t)), ih, List.map_cons]

theorem mkFrqs_ok_all (c s : String → Nat) :
    ∀ (gs : GS) (frqs : List (String × ℚ)),
      mkFrqs c s gs = Except.ok frqs → ∀ p ∈ gs, c p.1 ≠ 0
  | [], _, _, p, hp => absurd hp (List.not_mem_nil p)
  | q :: t, frqs, h, p, hp => by
    unfold mkFrqs at h
    by_cases hc : c q.1 = 0
    · rw [if_pos hc] at h
      exact Except.noConfusion h
    · rw [if_neg hc] at h
      cases hm : mkFrqs c s t with
      | error e => rw [hm] at h; exact Except.noConfusion h
      | ok r =>
        rcases List.mem_cons.mp hp with h1 | h2
        · rw [h1]; exact hc
        · exact mkFrqs_ok_all c s t r hm p h2

theorem get_frequencies_ok (gl : List String) (gs : GS) (frqs : List (String × ℚ))
    (counts : String → Nat)
    (hok : get_frequencies gl gs = Except.ok (frqs, counts)) :
    mkFrqs (gfLoop gl gs).2 (gfLoop gl gs).1 gs = Except.ok frqs ∧
      counts = (gfLoop gl gs).2 := by
  unfold get_frequencies at hok
  cases hm : mkFrqs (gfLoop gl gs).2 (gfLoop gl gs).1 gs with
  | error e => rw [hm] at hok; exact Except.noConfusion hok
  | ok r =>
    rw [hm] at hok
    injection hok with hpair
    injection hpair with h1 h2
    exact ⟨by rw [h1], h2.symm⟩

/-- C3: for any group of the index with duplicate-free group labels, the
accumulated `sums` value is the total number of literal `'1'` characters
over the genotype-field strings at the group's column positions, the
reported count is the total number of decimal-digit characters over those
strings, and (whenever the division pass succeeds, which forces the call
total to be positive) the reported frequency is their quotient. -/
theorem frequency_counts_match_spec (gl : List String) (gs : GS) (g : String)
    (idxs : List Nat) (hnd : (gs.map Prod.fst).Nodup) (hmem : (g, idxs) ∈ gs)
    (frqs : List (String × ℚ)) (counts : String → Nat)
    (hok : get_frequencies gl gs = Except.ok (frqs, counts)) :
    (gfLoop gl gs).1 g = specHits gl idxs ∧
    counts g = specDigits gl idxs ∧
    (g, (specHits gl idxs : ℚ) / (specDigits gl idxs : ℚ)) ∈ frqs := by
  obtain ⟨hm, hc⟩ := get_frequencies_ok gl gs frqs counts hok
  have hall := mkFrqs_ok_all _ _ gs frqs hm
  have hfr := mkFrqs_ok (gfLoop gl gs).2 (gfLoop gl gs).1 gs hall
  rw [hm] at hfr
  injection hfr with hfrqs
  have he := gfLoop_eval gl gs g idxs hnd hmem
  refine ⟨he.1, by rw [hc, he.2], ?_⟩
  rw [hfrqs, ← he.1, ← he.2]
  exact List.mem_map.mpr ⟨(g, idxs), hmem, rfl⟩

/-- Witness for C3 at the design document's worked example: three samples
with genotypes `0/1`, `1/1`, `0/0`, group `x` at columns 0 and 2 and group
`y` at column 1; group `x` has 1 allele hit over 4 digit characters. -/
theorem frequency_counts_match_spec_witness :
    (gfLoop ["0/1", "1/1", "0/0"] [("x", [0, 2]), ("y", [1])]).1 "x" =
      specHits ["0/1", "1/1", "0/0"] [0, 2] ∧
    (gfLoop ["0/1", "1/1", "0/0"] [("x", [0, 2]), ("y", [1])]).2 "x" =
      specDigits ["0/1", "1/1", "0/0"] [0, 2] ∧
    ("x", (specHits ["0/1", "1/1", "0/0"] [0, 2] : ℚ) /
        (specDigits ["0/1", "1/1", "0/0"] [0, 2] : ℚ)) ∈
      [("x", (1 : ℚ) / 4), ("y", (2 : ℚ) / 2)] :=
  frequency_counts_match_spec ["0/1", "1/1", "0/0"] [("x", [0, 2]), ("y", [1])] "x" [0, 2]
    (by decide) (by decide) [("x", (1 : ℚ) / 4), ("y", (2 : ℚ) / 2)]
    (gfLoop ["0/1", "1/1", "0/0"] [("x", [0, 2]), ("y", [1])]).2 rfl

theorem count1_le_countDigits (s : String) : count1 s ≤ countDigits s := by
  unfold count1 countDigits
  apply List.countP_mono_left
  intro c _ hc
  have hc1 : c = '1' := of_decide_eq_true hc
  rw [hc1]
  rfl

theorem specHits_le_specDigits (gl : List String) (idxs : List Nat) :
    specHits gl idxs ≤ specDigits gl idxs := by
  unfold specHits specDigits
  apply List.sum_le_sum
  intro s _
  exact count1_le_countDigits s

/-- C7: every frequency reported by a successful `get_frequencies` call on
an index with duplicate-free group labels lies in the closed interval
`[0, 1]`: the `'1'`-character count never exceeds the digit-character count
and both are non-negative. -/
theorem frequency_in_unit_interval (gl : List String) (gs : GS)
    (hnd : (gs.map Prod.fst).Nodup) (frqs : List (String × ℚ)) (counts : String → Nat)
    (hok : get_frequencies gl gs = Except.ok (frqs, counts))
    (g : String) (q : ℚ) (hgq : (g, q) ∈ frqs) :
    0 ≤ q ∧ q ≤ 1 := by
  obtain ⟨hm, _⟩ := get_frequencies_ok gl gs frqs counts hok
  have hall := mkFrqs_ok_all _ _ gs frqs hm
  have hfr := mkFrqs_ok (gfLoop gl gs).2 (gfLoop gl gs).1 gs hall
  rw [hm] at hfr
  injection hfr with hfrqs
  rw [hfrqs] at hgq
  obtain ⟨p, hp, hpe⟩ := List.mem_map.mp hgq
  obtain ⟨hg1, hq⟩ := Prod.mk.injEq .. ▸ hpe
  have hmemp : (p.1, p.2) ∈ gs := by
    rw [Prod.mk.eta]
    exact hp
  have he := gfLoop_eval gl gs p.1 p.2 hnd hmemp
  have hne := hall p hp
  rw [he.2] at hne
  have hdpos : (0 : ℚ) < (specDigits gl p.2 : ℚ) := by
    exact_mod_cast Nat.pos_of_ne_zero hne
  have hle : (specHits gl p.2 : ℚ) ≤ (specDigits gl p.2 : ℚ) := by
    exact_mod_cast specHits_le_specDigits gl p.2
  rw [← hq, he.1, he.2]
  constructor
  · exact div_nonneg (Nat.cast_nonneg _) (le_of_lt hdpos)
  · exact (div_le_one hdpos).mpr hle

/-- Witness for C7: a single sample with genotype `0/1` in group `x` gives
frequency one half, which the theorem places in the unit interval. -/
theorem frequency_in_unit_interval_witness :
    0 ≤ (1 : ℚ) / 2 ∧ (1 : ℚ) / 2 ≤ 1 :=
  frequency_in_unit_interval ["0/1"] [("x", [0])] (by decide)
    [("x", (1 : ℚ) / 2)] (gfLoop ["0/1"] [("x", [0])]).2 rfl "x" ((1 : ℚ) / 2)
    (List.mem_singleton.mpr rfl)

/-! ### The group index built by `main` -/

theorem mem_gsFind_gsAdd (j : Nat) (lab : String) (k : Nat) :
    ∀ (gs : GS) (l : String),
      j ∈ gsFind (gsAdd gs lab k) l ↔ j ∈ gsFind gs l ∨ (l = lab ∧ j = k)
  | [], l => by
    simp only [gsAdd, gsFind]
    by_cases h : lab = l
    · rw [if_pos h]
      simp [h.symm]
    · rw [if_neg h]
      constructor
      · intro hj
        exact absurd hj (List.not_mem_nil j)
      · rintro (hj | ⟨he, -⟩)
        · exact hj
        · exact absurd he (fun he2 => h he2.symm)
  | (a, s) :: t, l => by
    simp only [gsAdd]
    by_cases hp : a = lab
    · rw [if_pos hp]
      simp only [gsFind]
      by_cases hl : a = l
      · rw [if_pos hl, if_pos hl]
        have hllab : l = lab := hl.symm.trans hp
        by_cases hk : k ∈ s
        · rw [if_pos hk]
          constructor
          · exact fun hj => Or.inl hj
          · rintro (hj | ⟨-, rfl⟩)
            · exact hj
            · exact hk
        · rw [if_neg hk, List.mem_append, List.mem_singleton]
          constructor
          · rintro (hj | rfl)
            · exact Or.inl hj
            · exact Or.inr ⟨hllab, rfl⟩
          · rintro (hj | ⟨-, rfl⟩)
            · exact Or.inl hj
            · exact Or.inr rfl
      · rw [if_neg hl, if_neg hl]
        have hne : ¬ (l = lab) := fun he => hl (hp.trans he.symm)
        constructor
        · exact fun hj => Or.inl hj
        · rintro (hj | ⟨he, -⟩)
          · exact hj
          · exact absurd he hne
    · rw [if_neg hp]
      simp only [gsFind]
      by_cases hl : a = l
      · rw [if_pos hl, if_pos hl]
        have hne : ¬ (l = lab) := fun he => hp (hl.trans he)
        constructor
        · exact fun hj => Or.inl hj
        · rintro (hj | ⟨he, -⟩)
          · exact hj
          · exact absurd he hne
      · rw [if_neg hl, if_neg hl]
        exact mem_gsFind_gsAdd j lab k t l

theorem mem_gsFind_addLabels (k j : Nat) :
    ∀ (labs : List String) (gs : GS) (l : String),
      j ∈ gsFind (labs.foldl (fun g lab => gsAdd g lab k) gs) l ↔
        j ∈ gsFind gs l ∨ (l ∈ labs ∧ j = k)
  | [], gs, l => by simp
  | lab :: labs, gs, l => by
    rw [List.foldl_cons, mem_gsFind_addLabels k j labs (gsAdd gs lab k) l,
      mem_gsFind_gsAdd j lab k gs l]
    constructor
    · rintro ((hj | ⟨rfl, rfl⟩) | ⟨hmem, rfl⟩)
      · exact Or.inl hj
      · exact Or.inr ⟨List.mem_cons_self _ _, rfl⟩
      · exact Or.inr ⟨List.mem_cons_of_mem _ hmem, rfl⟩
    · rintro (hj | ⟨hmem, rfl⟩)
      · exact Or.inl (Or.inl hj)
      · rcases List.mem_cons.mp hmem with rfl | hmem'
        · exact Or.inl (Or.inr ⟨rfl, rfl⟩)
        · exact Or.inr ⟨hmem', rfl⟩

theorem mem_gsFind_buildGS (gi : GT) (j : Nat) :
    ∀ (names : List String) (k : Nat) (gs : GS) (l : String),
      j ∈ gsFind (buildGS gi names k gs) l ↔
        j ∈ gsFind gs l ∨
          ∃ m, m < names.length ∧ l ∈ labelsOf gi (names.getD m "") ∧ j = k + m
  | [], k, gs, l => by simp [buildGS]
  | n :: names, k, gs, l => by
    unfold buildGS
    rw [mem_gsFind_buildGS gi j names (k + 1) _ l,
      mem_gsFind_addLabels k j (labelsOf gi n) gs l]
    constructor
    · rintro ((hj | ⟨hmem, rfl⟩) | ⟨m, hm, hmem, rfl⟩)
      · exact Or.inl hj
      · exact Or.inr ⟨0, by simp, by simpa using hmem, by omega⟩
      · exact Or.inr ⟨m + 1, by simpa using hm, by simpa using hmem, by omega⟩
    · rintro (hj | ⟨m, hm, hmem, rfl⟩)
      · exact Or.inl (Or.inl hj)
      · cases m with
        | zero => exact Or.inl (Or.inr ⟨by simpa using hmem, by omega⟩)
        | succ m' => exact Or.inr ⟨m', by simpa using hm, by simpa using hmem, by omega⟩

/-- C5: a column position `i` belongs to the built group index at `label`
exactly when `i` indexes a resolved sample name whose grouping-table row
assigns it `label` under some grouping system; labels are accumulated in a
flat namespace across systems and no other positions appear. -/
theorem group_index_membership (gi : GT) (names : List String) (label : String) (i : Nat) :
    i ∈ gsFind (buildGroupSets gi names) label ↔
      i < names.length ∧ label ∈ labelsOf gi (names.getD i "") := by
  unfold buildGroupSets
  rw [mem_gsFind_buildGS gi i names 0 [] label]
  constructor
  · rintro (hj | ⟨m, hm, hmem, rfl⟩)
    · exact absurd hj (List.not_mem_nil i)
    · exact ⟨by omega, by simpa using hmem⟩
  · rintro ⟨hi, hmem⟩
    exact Or.inr ⟨i, hi, hmem, by omega⟩

/-! ### The streaming loop of `main` -/

theorem pyStartsWith_hash_of_CHROM (line : String)
    (h : pyStartsWith line "#CHROM" = true) : pyStartsWith line "#" = true := by
  unfold pyStartsWith at h ⊢
  rw [List.isPrefixOf_iff_prefix] at h ⊢
  exact List.IsPrefix.trans (by decide) h

theorem mainStep_comment (gi : GT) (uid : Nat) (st : MState) (line : String)
    (h1 : pyStartsWith line "#" = true) (h2 : pyStartsWith line "#CHROM" = false) :
    mainStep gi uid st line = Except.ok st := by
  unfold mainStep
  rw [h1, h2]
  rfl

theorem mainStep_header (gi : GT) (uid : Nat) (st1 : Option GS) (acc : List (List Cell))
    (line : String) (ns : List String)
    (hh : pyStartsWith line "#CHROM" = true)
    (hns : resolveSamples line uid = some ns) :
    mainStep gi uid (st1, acc) line =
      Except.ok (some (buildGroupSets gi ns),
        acc ++ [fixed5 ++ headerCells (buildGroupSets gi ns)]) := by
  have h1 := pyStartsWith_hash_of_CHROM line hh
  simp [mainStep, h1, hh, hns]

theorem mainStep_data (gi : GT) (uid : Nat) (gs : GS) (acc : List (List Cell))
    (line : String)
    (hd : pyStartsWith line "#" = false)
    (hc : ∀ p ∈ gs, (gfLoop ((pySplit1 (pyRstrip line) '\t').drop 9) gs).2 p.1 ≠ 0) :
    mainStep gi uid (some gs, acc) line = Except.ok (some gs, acc ++ [dataRow gs line]) := by
  have hm := mkFrqs_ok (gfLoop ((pySplit1 (pyRstrip line) '\t').drop 9) gs).2
    (gfLoop ((pySplit1 (pyRstrip line) '\t').drop 9) gs).1 gs hc
  simp [mainStep, hd, get_frequencies, hm, dataRow]

theorem foldE_cons {σ : Type} (f : σ → String → Except String σ) (s : σ) (a : String)
    (t : List String) :
    foldE f s (a :: t) =
      match f s a with
      | Except.error e => Except.error e
      | Except.ok s2 => foldE f s2 t := rfl

theorem foldE_append_comment (gi : GT) (uid : Nat) :
    ∀ (pre : List String),
      (∀ l ∈ pre, pyStartsWith l "#" = true ∧ pyStartsWith l "#CHROM" = false) →
      ∀ (st : MState) (rest : List String),
        foldE (mainStep gi uid) st (pre ++ rest) = foldE (mainStep gi uid) st rest
  | [], _, st, rest => rfl
  | l :: pre, h, st, rest => by
    have hl := h l (List.mem_cons_self l pre)
    have ih :=
      foldE_append_comment gi uid pre (fun q hq => h q (List.mem_cons_of_mem l hq)) st rest
    rw [List.cons_append, foldE_cons, mainStep_comment gi uid st l hl.1 hl.2]
    exact ih

theorem foldE_data (gi : GT) (uid : Nat) (gs : GS) :
    ∀ (rest : List String) (acc : List (List Cell)),
      (∀ l ∈ rest, pyStartsWith l "#CHROM" = false) →
      (∀ l ∈ rest, pyStartsWith l "#" = false →
        ∀ p ∈ gs, (gfLoop ((pySplit1 (pyRstrip l) '\t').drop 9) gs).2 p.1 ≠ 0) →
      foldE (mainStep gi uid) (some gs, acc) rest =
        Except.ok (some gs,
          acc ++ (rest.filter (fun l => !pyStartsWith l "#")).map (dataRow gs))
  | [], acc, _, _ => by simp [foldE]
  | l :: rest, acc, hch, hc => by
    have hch' := fun q hq => hch q (List.mem_cons_of_mem l hq)
    have hc' := fun q hq => hc q (List.mem_cons_of_mem l hq)
    by_cases hd : pyStartsWith l "#" = false
    · have ih := foldE_data gi uid gs rest (acc ++ [dataRow gs l]) hch' hc'
      unfold foldE
      rw [mainStep_data gi uid gs acc l hd (hc l (List.mem_cons_self l rest) hd),
        List.filter_cons_of_pos (by simp [hd]), List.map_cons]
      refine Eq.trans ih ?_
      simp
    · have hd' : pyStartsWith l "#" = true := by
        cases hx : pyStartsWith l "#" with
        | false => exact absurd hx hd
        | true => rfl
      have ih := foldE_data gi uid gs rest acc hch' hc'
      unfold foldE
      rw [mainStep_comment gi uid (some gs, acc) l hd' (hch l (List.mem_cons_self l rest)),
        List.filter_cons_of_neg (by simp [hd'])]
      exact ih

theorem headerCells_length : ∀ gs : GS, (headerCells gs).length = 2 * gs.length
  | [] => rfl
  | g :: t => by
    simp only [headerCells, List.length_cons, headerCells_length t]
    omega

theorem groupCells_length (c : String → Nat) :
    ∀ fr : List (String × ℚ), (groupCells c fr).length = 2 * fr.length
  | [] => rfl
  | f :: t => by
    simp only [groupCells, List.length_cons, groupCells_length c t]
    omega

/-- C6: on a variant file consisting of comment lines, then the `#CHROM`
header line, then further lines none of which is another `#CHROM` line, a
successful run writes exactly one header row (the five fixed columns
followed by `{label}_freq`, `{label}_count` per group label in first-seen
insertion order) and then one row per data line in input order, each data
row carrying its first five fields verbatim followed by the per-group value
pairs in the header's group order, for `5 + 2 * (number of group labels)`
columns per row whenever the data line has at least five fields. -/
theorem stream_output_shape (groupingLines : List String) (gi : GT) (gh : GH)
    (uf : Bool) (pre : List String) (hline : String) (rest : List String)
    (ns : List String)
    (hgl : get_groupings groupingLines = Except.ok (gi, gh))
    (hpre : ∀ l ∈ pre, pyStartsWith l "#" = true ∧ pyStartsWith l "#CHROM" = false)
    (hh : pyStartsWith hline "#CHROM" = true)
    (hns : resolveSamples hline (if uf then 2 else 1) = some ns)
    (hrest : ∀ l ∈ rest, pyStartsWith l "#CHROM" = false)
    (hcall : ∀ l ∈ rest, pyStartsWith l "#" = false →
      ∀ p ∈ buildGroupSets gi ns,
        (gfLoop ((pySplit1 (pyRstrip l) '\t').drop 9) (buildGroupSets gi ns)).2 p.1 ≠ 0) :
    runMain groupingLines (pre ++ hline :: rest) uf =
      Except.ok ((fixed5 ++ headerCells (buildGroupSets gi ns)) ::
        (rest.filter (fun l => !pyStartsWith l "#")).map (dataRow (buildGroupSets gi ns))) ∧
    (fixed5 ++ headerCells (buildGroupSets gi ns)).length =
      5 + 2 * (buildGroupSets gi ns).length ∧
    ∀ l ∈ rest.filter (fun l => !pyStartsWith l "#"),
      5 ≤ (pySplit1 (pyRstrip l) '\t').length →
      (dataRow (buildGroupSets gi ns) l).length = 5 + 2 * (buildGroupSets gi ns).length := by
  refine ⟨?_, ?_, ?_⟩
  · have hstep := mainStep_header gi (if uf then 2 else 1) none ([] : List (List Cell))
      hline ns hh hns
    have hf := foldE_data gi (if uf then 2 else 1) (buildGroupSets gi ns) rest
      ([] ++ [fixed5 ++ headerCells (buildGroupSets gi ns)]) hrest hcall
    have hpreF := foldE_append_comment gi (if uf then 2 else 1) pre hpre (none, [])
      (hline :: rest)
    simp only [runMain, hgl, hpreF, foldE, hstep, hf]
    simp
  · simp [fixed5, headerCells_length]
    omega
  · intro l hl h5
    simp [dataRow, groupCells_length, List.length_take]
    omega

/-- Witness for C6: a concrete run over one comment line, the `#CHROM` line
with samples `S_A`, `S_B`, and one data line; the output is the header row
followed by one data row of `5 + 2 * 2` columns in group order `x`, `y`. -/
theorem stream_output_shape_witness :
    runMain ["ID SYS1", "A x", "B y"]
      ["##fileformat=VCFv4.2",
       "#CHROM\tPOS\tID\tREF\tALT\tQUAL\tFILTER\tINFO\tFORMAT\tS_A\tS_B",
       "1\t5\trs1\tA\tT\tq\tf\ti\tGT\t0/1\t1/1"] false =
      Except.ok
        [[Cell.str "Chr", Cell.str "Position", Cell.str "rsID", Cell.str "Ref",
          Cell.str "Alt", Cell.str "x_freq", Cell.str "x_count", Cell.str "y_freq",
          Cell.str "y_count"],
         [Cell.str "1", Cell.str "5", Cell.str "rs1", Cell.str "A", Cell.str "T",
          Cell.num ((1 : ℚ) / 2), Cell.nat 2, Cell.num ((2 : ℚ) / 2), Cell.nat 2]] :=
  ((stream_output_shape ["ID SYS1", "A x", "B y"]
    [("A", [("SYS1", "x")]), ("B", [("SYS1", "y")])] [("SYS1", ["x", "y"])]
    false ["##fileformat=VCFv4.2"]
    "#CHROM\tPOS\tID\tREF\tALT\tQUAL\tFILTER\tINFO\tFORMAT\tS_A\tS_B"
    ["1\t5\trs1\tA\tT\tq\tf\ti\tGT\t0/1\t1/1"] ["A", "B"]
    rfl (by decide) (by decide) rfl (by decide) (by decide)).1).trans (by rfl)
